import Mathlib

/-
Verification development for the embargoed-asset URL-signing service
(src/sign-url.js).

The JavaScript module has two layers:

* pure signing logic: `generateSignedToken` (builds an HS256 JWT via
  `jwt.sign`) and `generateSignedUrl` (canonicalizes a URL and attaches
  `token` and `policy` query parameters);

* a process-wide credential cache: `createCachedAssetKey` keeps a
  `Map` from scope key "host:spaceId:environmentId" to
  `{ expiresAtMs, promise }` cache items, installs a fresh entry (and a
  fetch via `createAssetKey`) at the maximum 48h horizon on a miss or a
  stale hit, and on fetch failure deletes the entry only when the entry
  currently stored is the very object this fetch installed.

The embedding below is shallow.  JavaScript promises are modelled by
identifiers into an explicit promise table; object identity of cache
items (the `curCacheItem === cacheItem` test in the catch handler) is
modelled by a fresh numeric `id` tag stamped on every installed item;
the single-threaded event-loop atomicity of the synchronous body of
`createCachedAssetKey` and of the catch handler is modelled by making
each of them one atomic transition on a system state.  Timestamps are
integers (milliseconds).  The possibly-`undefined` JavaScript numbers
(`minExpiresAtMs`, `expiresAtMs`) are `Option Int`, with the JS
comparison semantics under which every comparison against `undefined`
is false.

External collaborators (the WHATWG URL parser and the jsonwebtoken
library) are not part of the repository; URLs are therefore modelled
structurally as origin + pathname + search-parameter list, and
`jwt.sign` as the constructor of a JWT record carrying the algorithm,
payload and signing key, serialized by an explicit encoding function.
-/

namespace SignUrl

/-! ## Basic data -/

/-- 48 hours in milliseconds, the maximum credential horizon
(`48 * 60 * 60 * 1000` in the source). -/
def h48 : Int := 48 * 60 * 60 * 1000

/-- The credential returned by the asset-key authority: the JSON body
with `policy` and `secret` fields (src/sign-url.js line 49). -/
structure AssetKey where
  policy : String
  secret : String
deriving DecidableEq, Repr

/-- One value of the `assetKeyCache` map: the object
`{ expiresAtMs, promise }` built on line 109 of src/sign-url.js.
`id` is a fresh tag standing for JavaScript object identity of the
cache item, and `promiseId` stands for the shared promise. -/
structure CacheItem where
  id : Nat
  expiresAtMs : Int
  promiseId : Nat
deriving DecidableEq, Repr

/-- An in-flight `createAssetKey` network call together with the cache
item its catch handler closes over: `itemId` is the identity of the
item installed by the call that started this fetch, `promiseId` the
promise shared with all joined callers, and `expiresAtMs` the expiry
passed to `createAssetKey` (src/sign-url.js lines 94-99). -/
structure PendingFetch where
  key : String
  accessToken : String
  itemId : Nat
  promiseId : Nat
  expiresAtMs : Int
deriving DecidableEq, Repr

/-- The observable state of a modelled promise. -/
inductive PromiseState where
  | pending
  | resolved (key : AssetKey)
  | rejected
deriving DecidableEq, Repr

/-- The relevant mutable state of the process: the current clock, the
`assetKeyCache` map, the promise table, the set of in-flight fetches,
a fresh-identity counter, and a counter of network fetches started. -/
structure SysState where
  now : Int
  cache : List (String × CacheItem)
  promises : List (Nat × PromiseState)
  pending : List PendingFetch
  nextId : Nat
  fetchCount : Nat
deriving DecidableEq, Repr

/-! ## Map operations

`assetKeyCache` is a JavaScript `Map`; we embed it as an association
list with `get` / `set` / `delete` mirroring the `Map` methods. -/

/-- Model of `Map.prototype.get`. -/
def mapGet : List (String × CacheItem) → String → Option CacheItem
  | [], _ => none
  | (k, v) :: rest, key => if k = key then some v else mapGet rest key

/-- Model of `Map.prototype.set` (replaces an existing binding in
place, otherwise appends). -/
def mapSet : List (String × CacheItem) → String → CacheItem → List (String × CacheItem)
  | [], key, item => [(key, item)]
  | (k, v) :: rest, key, item =>
    if k = key then (key, item) :: rest else (k, v) :: mapSet rest key item

/-- Model of `Map.prototype.delete`. -/
def mapDelete : List (String × CacheItem) → String → List (String × CacheItem)
  | [], _ => []
  | (k, v) :: rest, key =>
    if k = key then mapDelete rest key else (k, v) :: mapDelete rest key

/-- Lookup in the promise table. -/
def promGet : List (Nat × PromiseState) → Nat → Option PromiseState
  | [], _ => none
  | (k, v) :: rest, key => if k = key then some v else promGet rest key

/-- Update of the promise table. -/
def promSet : List (Nat × PromiseState) → Nat → PromiseState → List (Nat × PromiseState)
  | [], key, st => [(key, st)]
  | (k, v) :: rest, key, st =>
    if k = key then (key, st) :: rest else (k, v) :: promSet rest key st

/-! ## JavaScript comparison semantics

`minExpiresAtMs` may be `undefined`; in JavaScript both
`cacheItem.expiresAtMs < undefined` and `undefined > expiresAtMs`
evaluate to false (NaN comparison). -/

/-- JS `a < b` for a number `a` and a possibly-undefined number `b`. -/
def jsLtOpt (a : Int) (b : Option Int) : Bool :=
  match b with
  | none => false
  | some b => a < b

/-- JS `a > b` for a possibly-undefined number `a` and a number `b`. -/
def jsGtOpt (a : Option Int) (b : Int) : Bool :=
  match a with
  | none => false
  | some a => b < a

/-! ## The credential cache (src/sign-url.js lines 61-113) -/

/-- The cache key `host:spaceId:environmentId` (line 84). -/
def cacheKeyOf (host spaceId environmentId : String) : String :=
  host ++ ":" ++ spaceId ++ ":" ++ environmentId

/-- What a `createCachedAssetKey` call gives back to its caller:
either it throws the expiry-out-of-range error, or it returns a
promise (identified by its id). -/
inductive CallResult where
  | errored
  | returned (promiseId : Nat)
deriving DecidableEq, Repr

/-- The miss/stale branch of `createCachedAssetKey`
(src/sign-url.js lines 87-110): compute the maximum expiry
`now + 48h`; throw when `minExpiresAtMs > expiresAtMs`; otherwise
start a `createAssetKey` fetch at that expiry, install a fresh cache
item sharing its promise, and return the promise. -/
def freshFetch (s : SysState) (cacheKey accessToken : String)
    (minExpiresAtMs : Option Int) : CallResult × SysState :=
  let expiresAtMs := s.now + h48
  if jsGtOpt minExpiresAtMs expiresAtMs then
    (CallResult.errored, s)
  else
    let promiseId := s.nextId
    let itemId := s.nextId + 1
    let cacheItem : CacheItem := ⟨itemId, expiresAtMs, promiseId⟩
    (CallResult.returned promiseId,
      { s with
          cache := mapSet s.cache cacheKey cacheItem
          promises := (promiseId, PromiseState.pending) :: s.promises
          pending := ⟨cacheKey, accessToken, itemId, promiseId, expiresAtMs⟩ :: s.pending
          nextId := s.nextId + 2
          fetchCount := s.fetchCount + 1 })

/-- Shallow embedding of `createCachedAssetKey`
(src/sign-url.js lines 77-113).  The whole body is synchronous
JavaScript, hence one atomic transition: read the cache item for the
scope key; when it is absent or its `expiresAtMs < minExpiresAtMs`,
take the `freshFetch` branch; otherwise return the existing item's
promise. -/
def createCachedAssetKey (s : SysState) (host accessToken spaceId environmentId : String)
    (minExpiresAtMs : Option Int) : CallResult × SysState :=
  let cacheKey := cacheKeyOf host spaceId environmentId
  match mapGet s.cache cacheKey with
  | none => freshFetch s cacheKey accessToken minExpiresAtMs
  | some cacheItem =>
    if jsLtOpt cacheItem.expiresAtMs minExpiresAtMs then
      freshFetch s cacheKey accessToken minExpiresAtMs
    else
      (CallResult.returned cacheItem.promiseId, s)

/-- The catch handler installed on the fetch promise
(src/sign-url.js lines 100-108), run atomically when the fetch backing
`f` fails: read the current cache item for the key; delete the entry
only when it is identical (`===`, here: same `id`) to the item this
fetch installed; reject the shared promise, which every joined caller
observes. -/
def handleFetchFailure (s : SysState) (f : PendingFetch) : SysState :=
  let cache' :=
    match mapGet s.cache f.key with
    | some curCacheItem =>
      if curCacheItem.id = f.itemId then mapDelete s.cache f.key else s.cache
    | none => s.cache
  { s with
      cache := cache'
      promises := promSet s.promises f.promiseId PromiseState.rejected
      pending := s.pending.filter (fun g => g ≠ f) }

/-- Resolution of a successful fetch: the shared promise resolves to
the asset key; the cache item stays installed (src/sign-url.js leaves
the entry in place on success). -/
def handleFetchSuccess (s : SysState) (f : PendingFetch) (key : AssetKey) : SysState :=
  { s with
      promises := promSet s.promises f.promiseId (PromiseState.resolved key)
      pending := s.pending.filter (fun g => g ≠ f) }

/-- Identity tags in the state are below the fresh-identity counter.
This holds in every reachable state (the counter only grows and every
installed item and fetch is stamped from it) and is what makes the
`id` test a faithful model of object identity. -/
def WF (s : SysState) : Prop :=
  (∀ g ∈ s.pending, g.itemId < s.nextId ∧ g.promiseId < s.nextId) ∧
  (∀ kv ∈ s.cache, (kv.2 : CacheItem).id < s.nextId)

/-- Every cached item's expiry is at most `now + 48h`.  Holds in every
reachable state: items are installed at expiry `now + 48h` and the
clock never decreases. -/
def HorizonInv (s : SysState) : Prop :=
  ∀ kv ∈ s.cache, (kv.2 : CacheItem).expiresAtMs ≤ s.now + h48

/-! ## Token signing (src/sign-url.js lines 134-145)

The jsonwebtoken library is an external collaborator; `jwt.sign` is
modelled as the constructor of a record carrying the algorithm, the
payload and the signing key.  A payload field set to `undefined` in
JavaScript is dropped from the serialized JSON, so the `exp` claim is
an `Option`: `none` means the claim is absent from the token. -/

/-- The JWT payload built on lines 138-141: the `sub` claim and an
optional `exp` claim. -/
structure JwtPayload where
  sub : String
  exp : Option Int
deriving DecidableEq, Repr

/-- A signed JWT: algorithm from the header, payload, and the key the
signature was produced with. -/
structure Jwt where
  alg : String
  payload : JwtPayload
  signingKey : String
deriving DecidableEq, Repr

/-- Model of `jwt.sign(payload, secret, { algorithm })` from the
external jsonwebtoken library: deterministic HMAC signing, recorded as
the triple of its inputs. -/
def jwtSign (payload : JwtPayload) (secret : String) (algorithm : String) : Jwt :=
  ⟨algorithm, payload, secret⟩

/-- Stand-in for the compact JWS serialization of the external
library.  No claim depends on the byte format of the token string,
only on which JWT it denotes, so an explicit record-to-string encoding
suffices. -/
def jwtEncode (j : Jwt) : String :=
  j.alg ++ "." ++ j.payload.sub ++ "." ++
    (match j.payload.exp with
     | none => ""
     | some v => toString v) ++ "." ++ j.signingKey

/-- Shallow embedding of `generateSignedToken` (src/sign-url.js
lines 134-145).  `expiresAtMs ? Math.floor(expiresAtMs / 1000) :
undefined` — the JS truthiness test makes both `undefined` and `0`
produce an absent `exp`; `Math.floor` of the real quotient is floor
division. -/
def generateSignedToken (secret urlWithoutQueryParams : String)
    (expiresAtMs : Option Int) : Jwt :=
  let exp : Option Int :=
    match expiresAtMs with
    | none => none
    | some v => if v = 0 then none else some (Int.fdiv v 1000)
  jwtSign ⟨urlWithoutQueryParams, exp⟩ secret "HS256"

/-! ## URLs and the signed URL builder (src/sign-url.js lines 159-170)

The WHATWG `URL` class is an external collaborator; a parsed URL is
modelled structurally as its origin, its pathname and its search
parameter list. -/

/-- A parsed URL: `origin` (scheme plus host), `pathname`, and the
ordered list of search parameters. -/
structure URLRec where
  origin : String
  pathname : String
  searchParams : List (String × String)
deriving DecidableEq, Repr

/-- Removal of every pair with a given name (the "remove the others"
step of `URLSearchParams.prototype.set`). -/
def removeParam : List (String × String) → String → List (String × String)
  | [], _ => []
  | p :: rest, key =>
    if p.1 = key then removeParam rest key else p :: removeParam rest key

/-- Model of `URLSearchParams.prototype.set`: when a pair with the
name exists, change the first such pair's value and remove the other
pairs with that name; otherwise append the pair. -/
def setParam : List (String × String) → String → String → List (String × String)
  | [], key, v => [(key, v)]
  | p :: rest, key, v =>
    if p.1 = key then (key, v) :: removeParam rest key
    else p :: setParam rest key v

/-- Model of `URLSearchParams.prototype.get`: value of the first pair
with the given name. -/
def getParam : List (String × String) → String → Option String
  | [], _ => none
  | p :: rest, key => if p.1 = key then some p.2 else getParam rest key

/-- Values of the pairs with a given name, in order (the model of
`URLSearchParams.prototype.getAll`). -/
def paramsWithName : List (String × String) → String → List String
  | [], _ => []
  | p :: rest, key =>
    if p.1 = key then p.2 :: paramsWithName rest key else paramsWithName rest key

/-- Shallow embedding of `generateSignedUrl` (src/sign-url.js
lines 159-170): canonicalize the URL to origin + pathname, sign that
string, and set the `token` and `policy` search parameters on the
original URL. -/
def generateSignedUrl (policy secret : String) (url : URLRec)
    (expiresAtMs : Option Int) : URLRec :=
  let urlWithoutQueryParams := url.origin ++ url.pathname
  let token := generateSignedToken secret urlWithoutQueryParams expiresAtMs
  { url with
      searchParams :=
        setParam (setParam url.searchParams "token" (jwtEncode token))
          "policy" policy }

/-- Shallow embedding of `signUrl` (src/sign-url.js lines 186-202).
The synchronous prefix calls `createCachedAssetKey`, forwarding
`expiresAtMs` as `minExpiresAtMs`; the rest of the function runs once
the returned promise resolves to an asset key, so it is embedded as a
continuation from the resolved credential to the signed URL. -/
def signUrl (s : SysState) (host accessToken spaceId environmentId : String)
    (url : URLRec) (expiresAtMs : Option Int) :
    (CallResult × SysState) × (AssetKey → URLRec) :=
  (createCachedAssetKey s host accessToken spaceId environmentId expiresAtMs,
    fun key => generateSignedUrl key.policy key.secret url expiresAtMs)

/-- A sequence of `createCachedAssetKey` calls for one scope, run
back to back on the single-threaded event loop with no fetch
resolution in between — the model of N concurrent callers racing on
the same key at one instant. -/
def runCalls : SysState → String → String → String → String →
    List (Option Int) → List CallResult × SysState
  | s, _, _, _, _, [] => ([], s)
  | s, host, accessToken, spaceId, environmentId, m :: ms =>
    let first := createCachedAssetKey s host accessToken spaceId environmentId m
    let rest := runCalls first.2 host accessToken spaceId environmentId ms
    (first.1 :: rest.1, rest.2)

/-! ## Concrete example states, used by the closed witnesses -/

/-- An empty-cache state at clock 1000. -/
def exState0 : SysState :=
  { now := 1000, cache := [], promises := [], pending := [], nextId := 0, fetchCount := 0 }

/-- A state holding, for scope key "h:a:b", a nearly expired item
(id 1, expiry 5) whose fetch `exFetch` is still in flight, observed
at a much later clock. -/
def exState1 : SysState :=
  { now := 1000000,
    cache := [("h:a:b", ⟨1, 5, 0⟩)],
    promises := [(0, PromiseState.pending)],
    pending := [⟨"h:a:b", "t", 1, 0, 5⟩],
    nextId := 2, fetchCount := 1 }

/-- The in-flight fetch of `exState1`. -/
def exFetch : PendingFetch := ⟨"h:a:b", "t", 1, 0, 5⟩

/-- The state after a caller requiring `minExpiresAtMs = 50` runs
`createCachedAssetKey` on `exState1`: the stale item is replaced by a
fresh one (id 3, promise 2) at the maximum horizon. -/
def exState2 : SysState :=
  { now := 1000000,
    cache := [("h:a:b", ⟨3, 1000000 + h48, 2⟩)],
    promises := [(2, PromiseState.pending), (0, PromiseState.pending)],
    pending := [⟨"h:a:b", "t", 3, 2, 1000000 + h48⟩, ⟨"h:a:b", "t", 1, 0, 5⟩],
    nextId := 4, fetchCount := 2 }

/-! ## Map lemmas -/

theorem mapGet_mem {l : List (String × CacheItem)} {key : String} {v : CacheItem}
    (h : mapGet l key = some v) : (key, v) ∈ l := by
  induction l with
  | nil => simp [mapGet] at h
  | cons p rest ih =>
    obtain ⟨k, w⟩ := p
    by_cases hk : k = key
    · subst hk
      simp [mapGet] at h
      simp [h]
    · simp [mapGet, hk] at h
      exact List.mem_cons_of_mem _ (ih h)

theorem mapGet_mapSet_self (l : List (String × CacheItem)) (key : String) (v : CacheItem) :
    mapGet (mapSet l key v) key = some v := by
  induction l with
  | nil => simp [mapSet, mapGet]
  | cons p rest ih =>
    obtain ⟨k, w⟩ := p
    by_cases hk : k = key
    · subst hk
      simp [mapSet, mapGet]
    · simp [mapSet, mapGet, hk, ih]

theorem mapGet_mapDelete_self (l : List (String × CacheItem)) (key : String) :
    mapGet (mapDelete l key) key = none := by
  induction l with
  | nil => simp [mapDelete, mapGet]
  | cons p rest ih =>
    obtain ⟨k, w⟩ := p
    by_cases hk : k = key
    · simp [mapDelete, hk, ih]
    · simp [mapDelete, mapGet, hk, ih]

theorem promGet_promSet_self (l : List (Nat × PromiseState)) (key : Nat) (st : PromiseState) :
    promGet (promSet l key st) key = some st := by
  induction l with
  | nil => simp [promSet, promGet]
  | cons p rest ih =>
    obtain ⟨k, w⟩ := p
    by_cases hk : k = key
    · subst hk
      simp [promSet, promGet]
    · simp [promSet, promGet, hk, ih]

/-! ## Search-parameter lemmas -/

theorem paramsWithName_removeParam_self (l : List (String × String)) (key : String) :
    paramsWithName (removeParam l key) key = [] := by
  induction l with
  | nil => rfl
  | cons p rest ih =>
    by_cases hp : p.1 = key
    · simp [removeParam, hp, ih]
    · simp [removeParam, paramsWithName, hp, ih]

theorem paramsWithName_removeParam_other (l : List (String × String)) (key key' : String)
    (h : key' ≠ key) :
    paramsWithName (removeParam l key) key' = paramsWithName l key' := by
  have h1 : ¬ key = key' := fun hc => h hc.symm
  induction l with
  | nil => rfl
  | cons p rest ih =>
    by_cases hp : p.1 = key
    · have hp' : ¬ p.1 = key' := by rw [hp]; exact h1
      simp [removeParam, paramsWithName, hp, hp', h1, ih]
    · simp [removeParam, paramsWithName, hp, ih]

theorem paramsWithName_setParam_self (l : List (String × String)) (key v : String) :
    paramsWithName (setParam l key v) key = [v] := by
  induction l with
  | nil => simp [setParam, paramsWithName]
  | cons p rest ih =>
    by_cases hp : p.1 = key
    · simp [setParam, paramsWithName, hp, paramsWithName_removeParam_self]
    · simp [setParam, paramsWithName, hp, ih]

theorem paramsWithName_setParam_other (l : List (String × String)) (key v key' : String)
    (h : key' ≠ key) :
    paramsWithName (setParam l key v) key' = paramsWithName l key' := by
  have h1 : ¬ key = key' := fun hc => h hc.symm
  induction l with
  | nil => simp [setParam, paramsWithName, h1]
  | cons p rest ih =>
    by_cases hp : p.1 = key
    · have hp' : ¬ p.1 = key' := by rw [hp]; exact h1
      simp [setParam, paramsWithName, hp, hp', h1,
        paramsWithName_removeParam_other rest key key' h]
    · simp [setParam, paramsWithName, hp, ih]

theorem getParam_removeParam_other (l : List (String × String)) (key key' : String)
    (h : key' ≠ key) :
    getParam (removeParam l key) key' = getParam l key' := by
  have h1 : ¬ key = key' := fun hc => h hc.symm
  induction l with
  | nil => rfl
  | cons p rest ih =>
    by_cases hp : p.1 = key
    · have hp' : ¬ p.1 = key' := by rw [hp]; exact h1
      simp [removeParam, getParam, hp, hp', h1, ih]
    · simp [removeParam, getParam, hp, ih]

theorem getParam_setParam_self (l : List (String × String)) (key v : String) :
    getParam (setParam l key v) key = some v := by
  induction l with
  | nil => simp [setParam, getParam]
  | cons p rest ih =>
    by_cases hp : p.1 = key
    · simp [setParam, getParam, hp]
    · simp [setParam, getParam, hp, ih]

theorem getParam_setParam_other (l : List (String × String)) (key v key' : String)
    (h : key' ≠ key) :
    getParam (setParam l key v) key' = getParam l key' := by
  have h1 : ¬ key = key' := fun hc => h hc.symm
  induction l with
  | nil => simp [setParam, getParam, h1]
  | cons p rest ih =>
    by_cases hp : p.1 = key
    · have hp' : ¬ p.1 = key' := by rw [hp]; exact h1
      simp [setParam, getParam, hp, hp', h1,
        getParam_removeParam_other rest key key' h]
    · simp [setParam, getParam, hp, ih]

/-! ## Claim C6 -/

/-- C6, counterexample.  The claim states that for every `expiresAtMs`
the token's `exp` is `floor(expiresAtMs / 1000)`.  At
`expiresAtMs = 0` the JS truthiness test `expiresAtMs ? ... :
undefined` makes the `exp` claim absent, not `floor(0 / 1000) = 0`. -/
theorem generateSignedToken_exp_zero_cex :
    (generateSignedToken "topsecret" "https://cdn.example.com/a/b.jpg"
        (some 0)).payload.exp
      ≠ some (Int.fdiv 0 1000) := by
  decide

/-- C6, amended: for every secret, URL and defined nonzero
`expiresAtMs`, the token produced by `generateSignedToken` as used by
`signUrl` (via `generateSignedUrl`) is an HS256 JWT signed with the
secret whose `sub` is the canonical URL (origin plus path, query
parameters dropped) and whose `exp` is `floor(expiresAtMs / 1000)`;
the `token` query parameter of the signed URL carries exactly that
token. -/
theorem generateSignedToken_sub_exp (policy secret : String) (url : URLRec)
    (v : Int) (hv : v ≠ 0) :
    (generateSignedToken secret (url.origin ++ url.pathname) (some v)).alg = "HS256" ∧
    (generateSignedToken secret (url.origin ++ url.pathname) (some v)).payload.sub
      = url.origin ++ url.pathname ∧
    (generateSignedToken secret (url.origin ++ url.pathname) (some v)).payload.exp
      = some (Int.fdiv v 1000) ∧
    (generateSignedToken secret (url.origin ++ url.pathname) (some v)).signingKey
      = secret ∧
    getParam (generateSignedUrl policy secret url (some v)).searchParams "token"
      = some (jwtEncode
          (generateSignedToken secret (url.origin ++ url.pathname) (some v))) := by
  refine ⟨rfl, rfl, ?_, rfl, ?_⟩
  · simp [generateSignedToken, jwtSign, hv]
  · have hne : ("token" : String) ≠ "policy" := by decide
    unfold generateSignedUrl
    rw [getParam_setParam_other _ _ _ _ hne, getParam_setParam_self]

theorem generateSignedToken_sub_exp_witness :
    (5000 : Int) ≠ 0 ∧
    (generateSignedToken "sec" ("https://cdn.example.com" ++ "/a/b.jpg")
        (some 5000)).payload.exp = some (Int.fdiv 5000 1000) :=
  ⟨by decide,
    (generateSignedToken_sub_exp "pol" "sec"
      ⟨"https://cdn.example.com", "/a/b.jpg", [("w", "200")]⟩ 5000
      (by decide)).2.2.1⟩

/-! ## Claim C7 -/

/-- C7: the URL returned by the signed URL builder preserves the
input's origin, path, and every query parameter other than `token` and
`policy` (same values, same multiplicity, same order per name), and
carries exactly one `token` and one `policy` parameter, overwriting
any pre-existing parameters of those names rather than duplicating
them. -/
theorem generateSignedUrl_preserves_params (policy secret : String) (url : URLRec)
    (e : Option Int) :
    (generateSignedUrl policy secret url e).origin = url.origin ∧
    (generateSignedUrl policy secret url e).pathname = url.pathname ∧
    (∀ k, k ≠ "token" → k ≠ "policy" →
      paramsWithName (generateSignedUrl policy secret url e).searchParams k
        = paramsWithName url.searchParams k) ∧
    paramsWithName (generateSignedUrl policy secret url e).searchParams "token"
      = [jwtEncode (generateSignedToken secret (url.origin ++ url.pathname) e)] ∧
    paramsWithName (generateSignedUrl policy secret url e).searchParams "policy"
      = [policy] := by
  refine ⟨rfl, rfl, ?_, ?_, ?_⟩
  · intro k hk1 hk2
    unfold generateSignedUrl
    rw [paramsWithName_setParam_other _ _ _ _ hk2,
      paramsWithName_setParam_other _ _ _ _ hk1]
  · have hne : ("token" : String) ≠ "policy" := by decide
    unfold generateSignedUrl
    rw [paramsWithName_setParam_other _ _ _ _ hne, paramsWithName_setParam_self]
  · unfold generateSignedUrl
    rw [paramsWithName_setParam_self]

theorem generateSignedUrl_preserves_params_witness :
    paramsWithName
        (generateSignedUrl "pol" "sec"
          ⟨"https://cdn.example.com", "/a/b.jpg", [("w", "200"), ("token", "old")]⟩
          (some 5000)).searchParams "w"
      = ["200"] :=
  (generateSignedUrl_preserves_params "pol" "sec"
      ⟨"https://cdn.example.com", "/a/b.jpg", [("w", "200"), ("token", "old")]⟩
      (some 5000)).2.2.1 "w" (by decide) (by decide)

/-! ## Claim C8 -/

/-- C8: `generateSignedToken` is deterministic — two invocations with
identical secret, URL-without-query-parameters and `expiresAtMs`
produce identical tokens. -/
theorem generateSignedToken_deterministic (sa sb ua ub : String)
    (ea eb : Option Int) (hs : sa = sb) (hu : ua = ub) (he : ea = eb) :
    generateSignedToken sa ua ea = generateSignedToken sb ub eb := by
  subst hs
  subst hu
  subst he
  rfl

theorem generateSignedToken_deterministic_witness :
    generateSignedToken "sec" "https://cdn.example.com/a" (some 5000)
      = generateSignedToken "sec" "https://cdn.example.com/a" (some 5000) :=
  generateSignedToken_deterministic "sec" "sec" "https://cdn.example.com/a"
    "https://cdn.example.com/a" (some 5000) (some 5000) rfl rfl rfl

/-! ## Claim C9 -/

/-- C9: when `expiresAtMs` is `undefined` or `0` (both falsy in JS),
`generateSignedToken` produces a signed token with no `exp` claim at
all — not `exp = 0` and not an error — while still signing the given
subject with HS256 under the given secret. -/
theorem generateSignedToken_falsy_exp_absent (secret url : String) :
    (generateSignedToken secret url none).payload.exp = none ∧
    (generateSignedToken secret url (some 0)).payload.exp = none ∧
    (generateSignedToken secret url none).payload.sub = url ∧
    (generateSignedToken secret url (some 0)).payload.sub = url ∧
    (generateSignedToken secret url none).alg = "HS256" ∧
    (generateSignedToken secret url (some 0)).alg = "HS256" ∧
    (generateSignedToken secret url none).signingKey = secret ∧
    (generateSignedToken secret url (some 0)).signingKey = secret := by
  refine ⟨rfl, ?_, rfl, rfl, rfl, rfl, rfl, rfl⟩
  simp [generateSignedToken, jwtSign]

/-! ## Claim C4 -/

/-- C4: when the cache already holds an item for the scope key whose
`expiresAtMs` is at least the requested `minExpiresAtMs`, the call
returns that item's promise, performs no new fetch, and leaves the
whole state (in particular the cache and the fetch counter)
unmodified. -/
theorem createCachedAssetKey_cache_hit
    (s : SysState) (host accessToken spaceId environmentId : String)
    (m : Int) (item : CacheItem)
    (hget : mapGet s.cache (cacheKeyOf host spaceId environmentId) = some item)
    (hfresh : m ≤ item.expiresAtMs) :
    createCachedAssetKey s host accessToken spaceId environmentId (some m)
      = (CallResult.returned item.promiseId, s) := by
  have hlt : jsLtOpt item.expiresAtMs (some m) = false := by
    simp [jsLtOpt]
    omega
  simp [createCachedAssetKey, hget, hlt]

theorem createCachedAssetKey_cache_hit_witness :
    createCachedAssetKey
        { now := 1000,
          cache := [("cdn.example.com:sp1:master", ⟨1, 1000 + h48, 0⟩)],
          promises := [(0, PromiseState.pending)],
          pending := [⟨"cdn.example.com:sp1:master", "tok", 1, 0, 1000 + h48⟩],
          nextId := 2, fetchCount := 1 }
        "cdn.example.com" "tok" "sp1" "master" (some 2000)
      = (CallResult.returned 0,
        { now := 1000,
          cache := [("cdn.example.com:sp1:master", ⟨1, 1000 + h48, 0⟩)],
          promises := [(0, PromiseState.pending)],
          pending := [⟨"cdn.example.com:sp1:master", "tok", 1, 0, 1000 + h48⟩],
          nextId := 2, fetchCount := 1 }) :=
  createCachedAssetKey_cache_hit _ "cdn.example.com" "tok" "sp1" "master" 2000
    ⟨1, 1000 + h48, 0⟩ (by decide) (by decide)

/-! ## Claim C3 -/

/-- C3: a call whose `minExpiresAtMs` exceeds `now + 48h` throws the
expiry-out-of-range error and starts no network fetch, leaving the
state untouched.  The hypothesis is the horizon invariant satisfied by
every reachable cache (items are installed at `now + 48h` and the
clock never decreases), which forces the existing entry, if any, to be
stale for such a requirement. -/
theorem createCachedAssetKey_expiry_out_of_range
    (s : SysState) (host accessToken spaceId environmentId : String) (m : Int)
    (hinv : HorizonInv s) (hm : s.now + h48 < m) :
    createCachedAssetKey s host accessToken spaceId environmentId (some m)
      = (CallResult.errored, s) := by
  have hgt : jsGtOpt (some m) (s.now + h48) = true := by
    simp [jsGtOpt]
    omega
  cases hget : mapGet s.cache (cacheKeyOf host spaceId environmentId) with
  | none => simp [createCachedAssetKey, hget, freshFetch, hgt]
  | some item =>
    have hle : item.expiresAtMs ≤ s.now + h48 := hinv _ (mapGet_mem hget)
    have hlt : jsLtOpt item.expiresAtMs (some m) = true := by
      simp [jsLtOpt]
      omega
    simp [createCachedAssetKey, hget, hlt, freshFetch, hgt]

theorem createCachedAssetKey_expiry_out_of_range_witness :
    createCachedAssetKey
        { now := 1000, cache := [], promises := [], pending := [],
          nextId := 0, fetchCount := 0 }
        "cdn.example.com" "tok" "sp1" "master" (some (1000 + h48 + 1))
      = (CallResult.errored,
        { now := 1000, cache := [], promises := [], pending := [],
          nextId := 0, fetchCount := 0 }) :=
  createCachedAssetKey_expiry_out_of_range _ "cdn.example.com" "tok" "sp1" "master"
    (1000 + h48 + 1) (by intro kv hkv; simp at hkv) (by decide)

/-! ## Claim C10 -/

/-- C10: with `minExpiresAtMs` undefined, both JS comparisons against
it are false, so an existing cache item is reused no matter how soon
it expires, the expiry-out-of-range error is never raised, and only an
empty cache slot triggers a fetch; `signUrl` with an undefined
`expiresAtMs` forwards exactly this call. -/
theorem createCachedAssetKey_undefined_min
    (s : SysState) (host accessToken spaceId environmentId : String) (url : URLRec) :
    (∀ item, mapGet s.cache (cacheKeyOf host spaceId environmentId) = some item →
      createCachedAssetKey s host accessToken spaceId environmentId none
        = (CallResult.returned item.promiseId, s)) ∧
    (mapGet s.cache (cacheKeyOf host spaceId environmentId) = none →
      ∃ s', createCachedAssetKey s host accessToken spaceId environmentId none
          = (CallResult.returned s.nextId, s') ∧
        s'.fetchCount = s.fetchCount + 1) ∧
    (createCachedAssetKey s host accessToken spaceId environmentId none).1
      ≠ CallResult.errored ∧
    (signUrl s host accessToken spaceId environmentId url none).1
      = createCachedAssetKey s host accessToken spaceId environmentId none := by
  refine ⟨?_, ?_, ?_, rfl⟩
  · intro item hget
    simp [createCachedAssetKey, hget, jsLtOpt]
  · intro hget
    refine ⟨{ s with
        cache := mapSet s.cache (cacheKeyOf host spaceId environmentId)
          ⟨s.nextId + 1, s.now + h48, s.nextId⟩,
        promises := (s.nextId, PromiseState.pending) :: s.promises,
        pending := ⟨cacheKeyOf host spaceId environmentId, accessToken,
          s.nextId + 1, s.nextId, s.now + h48⟩ :: s.pending,
        nextId := s.nextId + 2,
        fetchCount := s.fetchCount + 1 }, ?_, rfl⟩
    simp [createCachedAssetKey, hget, freshFetch, jsGtOpt]
  · cases hget : mapGet s.cache (cacheKeyOf host spaceId environmentId) with
    | none => simp [createCachedAssetKey, hget, freshFetch, jsGtOpt]
    | some item => simp [createCachedAssetKey, hget, jsLtOpt]

theorem createCachedAssetKey_undefined_min_witness :
    createCachedAssetKey
        { now := 10 ^ 9,
          cache := [("cdn.example.com:sp1:master", ⟨1, 5, 0⟩)],
          promises := [(0, PromiseState.pending)],
          pending := [], nextId := 2, fetchCount := 1 }
        "cdn.example.com" "tok" "sp1" "master" none
      = (CallResult.returned 0,
        { now := 10 ^ 9,
          cache := [("cdn.example.com:sp1:master", ⟨1, 5, 0⟩)],
          promises := [(0, PromiseState.pending)],
          pending := [], nextId := 2, fetchCount := 1 }) :=
  (createCachedAssetKey_undefined_min _ "cdn.example.com" "tok" "sp1" "master"
      ⟨"https://cdn.example.com", "/a", []⟩).1 ⟨1, 5, 0⟩ (by decide)

/-! ## Decomposition lemmas for the cache transition -/

theorem freshFetch_spec (s : SysState) (cacheKey accessToken : String)
    (minE : Option Int) (r : CallResult) (s' : SysState)
    (hcall : freshFetch s cacheKey accessToken minE = (r, s')) :
    (jsGtOpt minE (s.now + h48) = true ∧ r = CallResult.errored ∧ s' = s) ∨
    (jsGtOpt minE (s.now + h48) = false ∧ r = CallResult.returned s.nextId ∧
      s' = { s with
        cache := mapSet s.cache cacheKey ⟨s.nextId + 1, s.now + h48, s.nextId⟩,
        promises := (s.nextId, PromiseState.pending) :: s.promises,
        pending := ⟨cacheKey, accessToken, s.nextId + 1, s.nextId, s.now + h48⟩
          :: s.pending,
        nextId := s.nextId + 2,
        fetchCount := s.fetchCount + 1 }) := by
  by_cases hgt : jsGtOpt minE (s.now + h48) = true
  · left
    simp only [freshFetch, hgt, if_true] at hcall
    injection hcall with h1 h2
    exact ⟨hgt, h1.symm, h2.symm⟩
  · right
    rw [Bool.not_eq_true] at hgt
    simp only [freshFetch, hgt, Bool.false_eq_true, if_false] at hcall
    injection hcall with h1 h2
    exact ⟨hgt, h1.symm, h2.symm⟩

theorem createCachedAssetKey_cases
    (s : SysState) (host accessToken spaceId environmentId : String)
    (minE : Option Int) (r : CallResult) (s' : SysState)
    (hcall : createCachedAssetKey s host accessToken spaceId environmentId minE
      = (r, s')) :
    (∃ item, mapGet s.cache (cacheKeyOf host spaceId environmentId) = some item ∧
      jsLtOpt item.expiresAtMs minE = false ∧
      r = CallResult.returned item.promiseId ∧ s' = s) ∨
    freshFetch s (cacheKeyOf host spaceId environmentId) accessToken minE = (r, s') := by
  cases hget : mapGet s.cache (cacheKeyOf host spaceId environmentId) with
  | none =>
    right
    simpa only [createCachedAssetKey, hget] using hcall
  | some item =>
    by_cases hlt : jsLtOpt item.expiresAtMs minE = true
    · right
      simpa only [createCachedAssetKey, hget, hlt, if_true] using hcall
    · left
      rw [Bool.not_eq_true] at hlt
      simp only [createCachedAssetKey, hget, hlt, Bool.false_eq_true, if_false] at hcall
      injection hcall with h1 h2
      exact ⟨item, rfl, hlt, h1.symm, h2.symm⟩

/-! ## Claim C5 -/

/-- C5: whatever item a `createCachedAssetKey` call installs (an item
present for the scope key after the call that was not there before)
has `expiresAtMs` equal to `now + 48h` — the maximum horizon,
regardless of the caller's `minExpiresAtMs` — and the in-flight fetch
backing it requested exactly that expiry from the authority. -/
theorem createCachedAssetKey_installs_max_horizon
    (s : SysState) (host accessToken spaceId environmentId : String)
    (minE : Option Int) (r : CallResult) (s' : SysState)
    (hcall : createCachedAssetKey s host accessToken spaceId environmentId minE
      = (r, s'))
    (e : CacheItem)
    (hget : mapGet s'.cache (cacheKeyOf host spaceId environmentId) = some e)
    (hnew : mapGet s.cache (cacheKeyOf host spaceId environmentId) ≠ some e) :
    e.expiresAtMs = s.now + h48 ∧ e.promiseId = s.nextId ∧
    ∃ g ∈ s'.pending, g.itemId = e.id ∧ g.promiseId = e.promiseId ∧
      g.expiresAtMs = s.now + h48 := by
  rcases createCachedAssetKey_cases s host accessToken spaceId environmentId minE r s'
      hcall with ⟨item, hg, _, _, rfl⟩ | hff
  · exact absurd hget hnew
  · rcases freshFetch_spec s (cacheKeyOf host spaceId environmentId) accessToken minE r s'
        hff with ⟨_, _, rfl⟩ | ⟨_, _, rfl⟩
    · exact absurd hget hnew
    · simp only [mapGet_mapSet_self, Option.some.injEq] at hget
      subst hget
      exact ⟨rfl, rfl,
        ⟨cacheKeyOf host spaceId environmentId, accessToken,
          s.nextId + 1, s.nextId, s.now + h48⟩,
        List.mem_cons_self _ _, rfl, rfl, rfl⟩

theorem createCachedAssetKey_installs_max_horizon_witness :
    (⟨3, 1000000 + h48, 2⟩ : CacheItem).expiresAtMs = exState1.now + h48 ∧
    (⟨3, 1000000 + h48, 2⟩ : CacheItem).promiseId = exState1.nextId ∧
    ∃ g ∈ exState2.pending,
      g.itemId = (⟨3, 1000000 + h48, 2⟩ : CacheItem).id ∧
      g.promiseId = (⟨3, 1000000 + h48, 2⟩ : CacheItem).promiseId ∧
      g.expiresAtMs = exState1.now + h48 :=
  createCachedAssetKey_installs_max_horizon exState1 "h" "t" "a" "b" (some 50)
    (CallResult.returned 2) exState2 (by decide) ⟨3, 1000000 + h48, 2⟩
    (by decide) (by decide)

/-! ## Claim C1 -/

/-- C1: when the fetch backing `f` fails, the catch handler removes
the cache entry for `f`'s scope key iff the item currently stored is
the identical item this fetch installed (compare-and-delete by
identity); the rejection is recorded on the one promise every joined
caller holds; and an item installed by a later call — fresh by the
`WF` identity discipline — is never evicted by the late failure of the
older fetch. -/
theorem createCachedAssetKey_failure_rollback (s : SysState) (f : PendingFetch) :
    (∀ cur, mapGet s.cache f.key = some cur →
      ((mapGet (handleFetchFailure s f).cache f.key = none ↔ cur.id = f.itemId) ∧
        (cur.id ≠ f.itemId →
          mapGet (handleFetchFailure s f).cache f.key = some cur))) ∧
    promGet (handleFetchFailure s f).promises f.promiseId
      = some PromiseState.rejected ∧
    (∀ host accessToken spaceId environmentId minE r s' e,
      WF s → f ∈ s.pending →
      cacheKeyOf host spaceId environmentId = f.key →
      createCachedAssetKey s host accessToken spaceId environmentId minE = (r, s') →
      mapGet s'.cache f.key = some e →
      mapGet s.cache f.key = some e ∨
        (e.id ≠ f.itemId ∧
          mapGet (handleFetchFailure s' f).cache f.key = some e)) := by
  refine ⟨?_, ?_, ?_⟩
  · intro cur hcur
    by_cases hid : cur.id = f.itemId
    · have hcache : (handleFetchFailure s f).cache = mapDelete s.cache f.key := by
        simp [handleFetchFailure, hcur, hid]
      rw [hcache, mapGet_mapDelete_self]
      exact ⟨⟨fun _ => hid, fun _ => rfl⟩, fun hne => absurd hid hne⟩
    · have hcache : (handleFetchFailure s f).cache = s.cache := by
        simp [handleFetchFailure, hcur, hid]
      rw [hcache, hcur]
      exact ⟨⟨fun hc => Option.noConfusion hc, fun hc => absurd hc hid⟩, fun _ => rfl⟩
  · exact promGet_promSet_self s.promises f.promiseId PromiseState.rejected
  · intro host accessToken spaceId environmentId minE r s' e hwf hf hkey hcall hget
    rcases createCachedAssetKey_cases s host accessToken spaceId environmentId minE r s'
        hcall with ⟨item, hg, _, _, rfl⟩ | hff
    · exact Or.inl hget
    · rcases freshFetch_spec s (cacheKeyOf host spaceId environmentId) accessToken minE
          r s' hff with ⟨_, _, rfl⟩ | ⟨_, _, rfl⟩
      · exact Or.inl hget
      · rw [hkey] at hget
        have hget' := hget
        simp only [mapGet_mapSet_self, Option.some.injEq] at hget'
        subst hget'
        have hlt : f.itemId < s.nextId := (hwf.1 f hf).1
        have hne : (s.nextId + 1 : Nat) ≠ f.itemId := by omega
        refine Or.inr ⟨hne, ?_⟩
        have hcache :
            (handleFetchFailure
              { s with
                cache := mapSet s.cache f.key ⟨s.nextId + 1, s.now + h48, s.nextId⟩,
                promises := (s.nextId, PromiseState.pending) :: s.promises,
                pending := ⟨f.key, accessToken, s.nextId + 1, s.nextId, s.now + h48⟩
                  :: s.pending,
                nextId := s.nextId + 2,
                fetchCount := s.fetchCount + 1 } f).cache
            = mapSet s.cache f.key ⟨s.nextId + 1, s.now + h48, s.nextId⟩ := by
          simp [handleFetchFailure, mapGet_mapSet_self, hne]
        rw [← hkey] at hcache ⊢
        rw [hcache, hkey, mapGet_mapSet_self]

theorem createCachedAssetKey_failure_rollback_witness :
    mapGet (handleFetchFailure exState1 exFetch).cache exFetch.key = none ∧
    promGet (handleFetchFailure exState1 exFetch).promises exFetch.promiseId
      = some PromiseState.rejected ∧
    (mapGet exState1.cache exFetch.key = some ⟨3, 1000000 + h48, 2⟩ ∨
      ((⟨3, 1000000 + h48, 2⟩ : CacheItem).id ≠ exFetch.itemId ∧
        mapGet (handleFetchFailure exState2 exFetch).cache exFetch.key
          = some ⟨3, 1000000 + h48, 2⟩)) := by
  have h := createCachedAssetKey_failure_rollback exState1 exFetch
  exact ⟨((h.1 ⟨1, 5, 0⟩ (by decide)).1).mpr (by decide), h.2.1,
    h.2.2 "h" "t" "a" "b" (some 50) (CallResult.returned 2) exState2
      ⟨3, 1000000 + h48, 2⟩ (by unfold WF; decide) (by decide) (by decide)
      (by decide) (by decide)⟩

/-! ## Claim C2 -/

theorem runCalls_cache_hit (s : SysState)
    (host accessToken spaceId environmentId : String) (item : CacheItem)
    (hget : mapGet s.cache (cacheKeyOf host spaceId environmentId) = some item) :
    ∀ ms : List (Option Int), (∀ m ∈ ms, jsLtOpt item.expiresAtMs m = false) →
      runCalls s host accessToken spaceId environmentId ms
        = (ms.map (fun _ => CallResult.returned item.promiseId), s) := by
  intro ms
  induction ms with
  | nil => intro _; rfl
  | cons m ms ih =>
    intro hms
    have h1 : createCachedAssetKey s host accessToken spaceId environmentId m
        = (CallResult.returned item.promiseId, s) := by
      simp [createCachedAssetKey, hget, hms m (List.mem_cons_self m ms)]
    simp [runCalls, h1, ih (fun m' hm' => hms m' (List.mem_cons_of_mem m hm'))]

/-- C2: starting from a state with no item for the scope key, N back
to back `createCachedAssetKey` calls at one instant, each requiring
`minExpiresAtMs ≤ now + 48h`, all return the one promise installed by
the first call (single-flight), exactly one `createAssetKey` network
fetch is started, and when that fetch succeeds every caller's shared
promise resolves to the same credential. -/
theorem createCachedAssetKey_single_flight
    (s : SysState) (host accessToken spaceId environmentId : String)
    (mins : List Int) (hne : mins ≠ [])
    (hbound : ∀ m ∈ mins, m ≤ s.now + h48)
    (hmiss : mapGet s.cache (cacheKeyOf host spaceId environmentId) = none) :
    ∃ s', runCalls s host accessToken spaceId environmentId (mins.map some)
        = (mins.map (fun _ => CallResult.returned s.nextId), s') ∧
      s'.fetchCount = s.fetchCount + 1 ∧
      ∃ g ∈ s'.pending, g.promiseId = s.nextId ∧
        ∀ key : AssetKey,
          promGet (handleFetchSuccess s' g key).promises s.nextId
            = some (PromiseState.resolved key) := by
  obtain ⟨m0, rest, rfl⟩ : ∃ m0 rest, mins = m0 :: rest := by
    cases mins with
    | nil => exact absurd rfl hne
    | cons a l => exact ⟨a, l, rfl⟩
  have hm0 : m0 ≤ s.now + h48 := hbound m0 (List.mem_cons_self m0 rest)
  have hgt : jsGtOpt (some m0) (s.now + h48) = false := by
    simp [jsGtOpt]
    omega
  refine ⟨{ s with
      cache := mapSet s.cache (cacheKeyOf host spaceId environmentId)
        ⟨s.nextId + 1, s.now + h48, s.nextId⟩,
      promises := (s.nextId, PromiseState.pending) :: s.promises,
      pending := ⟨cacheKeyOf host spaceId environmentId, accessToken,
        s.nextId + 1, s.nextId, s.now + h48⟩ :: s.pending,
      nextId := s.nextId + 2,
      fetchCount := s.fetchCount + 1 }, ?_, rfl, ?_⟩
  · have h1 : createCachedAssetKey s host accessToken spaceId environmentId (some m0)
        = (CallResult.returned s.nextId,
          { s with
              cache := mapSet s.cache (cacheKeyOf host spaceId environmentId)
                ⟨s.nextId + 1, s.now + h48, s.nextId⟩,
              promises := (s.nextId, PromiseState.pending) :: s.promises,
              pending := ⟨cacheKeyOf host spaceId environmentId, accessToken,
                s.nextId + 1, s.nextId, s.now + h48⟩ :: s.pending,
              nextId := s.nextId + 2,
              fetchCount := s.fetchCount + 1 }) := by
      simp [createCachedAssetKey, hmiss, freshFetch, hgt]
    have hrest := runCalls_cache_hit
      { s with
          cache := mapSet s.cache (cacheKeyOf host spaceId environmentId)
            ⟨s.nextId + 1, s.now + h48, s.nextId⟩,
          promises := (s.nextId, PromiseState.pending) :: s.promises,
          pending := ⟨cacheKeyOf host spaceId environmentId, accessToken,
            s.nextId + 1, s.nextId, s.now + h48⟩ :: s.pending,
          nextId := s.nextId + 2,
          fetchCount := s.fetchCount + 1 }
      host accessToken spaceId environmentId
      ⟨s.nextId + 1, s.now + h48, s.nextId⟩
      (mapGet_mapSet_self s.cache (cacheKeyOf host spaceId environmentId) _)
      (rest.map some)
      (by
        intro m hm
        obtain ⟨m', hm', rfl⟩ := List.mem_map.mp hm
        have hb := hbound m' (List.mem_cons_of_mem m0 hm')
        simp [jsLtOpt]
        omega)
    simp [runCalls, h1, hrest, List.map_map, Function.comp_def, List.map_const,
      List.map_const']
  · exact ⟨⟨cacheKeyOf host spaceId environmentId, accessToken,
      s.nextId + 1, s.nextId, s.now + h48⟩,
      List.mem_cons_self _ _, rfl,
      fun key => promGet_promSet_self _ s.nextId (PromiseState.resolved key)⟩

theorem createCachedAssetKey_single_flight_witness :
    ∃ s', runCalls exState0 "cdn.example.com" "tok" "sp1" "master"
        ([2000, 3000].map some)
      = ([2000, 3000].map (fun _ => CallResult.returned exState0.nextId), s') ∧
      s'.fetchCount = exState0.fetchCount + 1 ∧
      ∃ g ∈ s'.pending, g.promiseId = exState0.nextId ∧
        ∀ key : AssetKey,
          promGet (handleFetchSuccess s' g key).promises exState0.nextId
            = some (PromiseState.resolved key) :=
  createCachedAssetKey_single_flight exState0 "cdn.example.com" "tok" "sp1" "master"
    [2000, 3000] (by decide) (by decide) (by decide)

/-! ## Preservation of the invariants

`WF` (identity freshness) and `HorizonInv` (cached expiries at most
`now + 48h`) hold in the empty initial state and are preserved by
every transition of the model — calls, failure and success handlers,
and clock advance — so the hypotheses of the rollback and
out-of-range theorems hold in every reachable state. -/

theorem mem_mapSet {l : List (String × CacheItem)} {key : String} {v : CacheItem}
    {kv : String × CacheItem} (h : kv ∈ mapSet l key v) : kv ∈ l ∨ kv = (key, v) := by
  induction l with
  | nil =>
    simp [mapSet] at h
    exact Or.inr h
  | cons p rest ih =>
    obtain ⟨k, w⟩ := p
    by_cases hk : k = key
    · simp [mapSet, hk] at h
      rcases h with h | h
      · exact Or.inr (by simp [h])
      · exact Or.inl (List.mem_cons_of_mem _ h)
    · simp [mapSet, hk] at h
      rcases h with h | h
      · exact Or.inl (by simp [h])
      · rcases ih h with h' | h'
        · exact Or.inl (List.mem_cons_of_mem _ h')
        · exact Or.inr h'

theorem mem_mapDelete {l : List (String × CacheItem)} {key : String}
    {kv : String × CacheItem} (h : kv ∈ mapDelete l key) : kv ∈ l := by
  induction l with
  | nil => simp [mapDelete] at h
  | cons p rest ih =>
    obtain ⟨k, w⟩ := p
    by_cases hk : k = key
    · simp [mapDelete, hk] at h
      exact List.mem_cons_of_mem _ (ih h)
    · simp [mapDelete, hk] at h
      rcases h with h | h
      · exact by simp [h]
      · exact List.mem_cons_of_mem _ (ih h)

theorem WF_initial : WF exState0 := by
  unfold WF
  decide

theorem HorizonInv_initial : HorizonInv exState0 := by
  intro kv hkv
  simp [exState0] at hkv

theorem WF_createCachedAssetKey
    (s : SysState) (host accessToken spaceId environmentId : String)
    (minE : Option Int) (r : CallResult) (s' : SysState) (hwf : WF s)
    (hcall : createCachedAssetKey s host accessToken spaceId environmentId minE
      = (r, s')) : WF s' := by
  rcases createCachedAssetKey_cases s host accessToken spaceId environmentId minE r s'
      hcall with ⟨item, _, _, _, rfl⟩ | hff
  · exact hwf
  · rcases freshFetch_spec s (cacheKeyOf host spaceId environmentId) accessToken minE
        r s' hff with ⟨_, _, rfl⟩ | ⟨_, _, rfl⟩
    · exact hwf
    · constructor
      · intro g hg
        rcases List.mem_cons.mp hg with hg | hg
        · subst hg
          refine ⟨?_, ?_⟩
          · show s.nextId + 1 < s.nextId + 2
            omega
          · show s.nextId < s.nextId + 2
            omega
        · obtain ⟨h1, h2⟩ := hwf.1 g hg
          refine ⟨?_, ?_⟩
          · show g.itemId < s.nextId + 2
            omega
          · show g.promiseId < s.nextId + 2
            omega
      · intro kv hkv
        rcases mem_mapSet hkv with hkv | hkv
        · have := hwf.2 kv hkv
          show (kv.2 : CacheItem).id < s.nextId + 2
          omega
        · subst hkv
          show s.nextId + 1 < s.nextId + 2
          omega

theorem HorizonInv_createCachedAssetKey
    (s : SysState) (host accessToken spaceId environmentId : String)
    (minE : Option Int) (r : CallResult) (s' : SysState) (hinv : HorizonInv s)
    (hcall : createCachedAssetKey s host accessToken spaceId environmentId minE
      = (r, s')) : HorizonInv s' := by
  rcases createCachedAssetKey_cases s host accessToken spaceId environmentId minE r s'
      hcall with ⟨item, _, _, _, rfl⟩ | hff
  · exact hinv
  · rcases freshFetch_spec s (cacheKeyOf host spaceId environmentId) accessToken minE
        r s' hff with ⟨_, _, rfl⟩ | ⟨_, _, rfl⟩
    · exact hinv
    · intro kv hkv
      rcases mem_mapSet hkv with hkv | hkv
      · exact hinv kv hkv
      · subst hkv
        show s.now + h48 ≤ s.now + h48
        omega

theorem WF_handleFetchFailure (s : SysState) (f : PendingFetch) (hwf : WF s) :
    WF (handleFetchFailure s f) := by
  constructor
  · intro g hg
    exact hwf.1 g (List.mem_of_mem_filter hg)
  · intro kv hkv
    have hsub : kv ∈ s.cache := by
      by_cases hcur : ∃ cur, mapGet s.cache f.key = some cur ∧ cur.id = f.itemId
      · obtain ⟨cur, hc1, hc2⟩ := hcur
        have : (handleFetchFailure s f).cache = mapDelete s.cache f.key := by
          simp [handleFetchFailure, hc1, hc2]
        rw [this] at hkv
        exact mem_mapDelete hkv
      · have : (handleFetchFailure s f).cache = s.cache := by
          cases hc : mapGet s.cache f.key with
          | none => simp [handleFetchFailure, hc]
          | some cur =>
            have hne : ¬ cur.id = f.itemId := fun he => hcur ⟨cur, hc, he⟩
            simp [handleFetchFailure, hc, hne]
        rw [this] at hkv
        exact hkv
    exact hwf.2 kv hsub

theorem WF_handleFetchSuccess (s : SysState) (f : PendingFetch) (key : AssetKey)
    (hwf : WF s) : WF (handleFetchSuccess s f key) := by
  constructor
  · intro g hg
    exact hwf.1 g (List.mem_of_mem_filter hg)
  · intro kv hkv
    exact hwf.2 kv hkv

theorem HorizonInv_handleFetchFailure (s : SysState) (f : PendingFetch)
    (hinv : HorizonInv s) : HorizonInv (handleFetchFailure s f) := by
  intro kv hkv
  by_cases hcur : ∃ cur, mapGet s.cache f.key = some cur ∧ cur.id = f.itemId
  · obtain ⟨cur, hc1, hc2⟩ := hcur
    have : (handleFetchFailure s f).cache = mapDelete s.cache f.key := by
      simp [handleFetchFailure, hc1, hc2]
    rw [this] at hkv
    exact hinv kv (mem_mapDelete hkv)
  · have : (handleFetchFailure s f).cache = s.cache := by
      cases hc : mapGet s.cache f.key with
      | none => simp [handleFetchFailure, hc]
      | some cur =>
        have hne : ¬ cur.id = f.itemId := fun he => hcur ⟨cur, hc, he⟩
        simp [handleFetchFailure, hc, hne]
    rw [this] at hkv
    exact hinv kv hkv

theorem HorizonInv_handleFetchSuccess (s : SysState) (f : PendingFetch)
    (key : AssetKey) (hinv : HorizonInv s) : HorizonInv (handleFetchSuccess s f key) :=
  fun kv hkv => hinv kv hkv

theorem HorizonInv_clock_advance (s : SysState) (t : Int) (h : s.now ≤ t)
    (hinv : HorizonInv s) : HorizonInv { s with now := t } := by
  intro kv hkv
  have := hinv kv hkv
  simp only [] at hkv ⊢
  omega

theorem WF_clock_advance (s : SysState) (t : Int) (hwf : WF s) :
    WF { s with now := t } := hwf

end SignUrl
